import Mathlib

/-!
Shallow embedding of the synchronization engine in
`src/ftp-tool-Pyton/src/core/ftp_worker.py` (class `FtpWorker`), covering:
the per-file stability gate, the temporary-file transfer pipeline, the
recursive directory traversal with its skip-log throttling, the MLSD/NLST
listing strategy with the cached capability flag `_mlsd_supported`, the
connection-lifecycle helpers, and the outer cycle loop's failure counting.

Local files are modelled as a map from paths (lists of name components) to
an optional byte count: `some n` means a file of `n` bytes exists at that
path.  Remote files carry their actual byte count together with the
outcomes of the fallible remote operations on them (SIZE queries, the
stability-poll reads, the streaming transfer), so every run of the
embedded code is a deterministic function of its inputs.
-/

abbrev LPath := List String

abbrev LocalFS := LPath → Option Nat

/-- Pointwise update of the local file-system map (`some` = file present,
the number is the file's size in bytes). -/
def upd (fs : LocalFS) (k : LPath) (v : Option Nat) : LocalFS :=
  fun p => if p = k then v else fs p

/-- Configuration snapshot fields read by `download_dir_recursive`:
`delete_after_download`, `EnableFileStability`, `FileStabilityWait`
(seconds) and `skip_log_limit`. -/
structure Settings where
  deleteAfterDownload : Bool
  enableStability : Bool
  waitSeconds : Nat
  skipLogLimit : Nat

/-- One remote file, together with the outcomes of the fallible remote
operations the worker performs on it:
`content` is the actual byte count streamed by RETR;
`sizeQueryOk` says whether `ftp.size` succeeds (returning `content`);
`factsSize` is the size fact supplied by MLSD, if any;
`polls` are the successive `ftp.size` answers seen by the stability poll
(`none` = the read raised);
`streamResult` is `none` when `retrbinary` completes, `some k` when the
stream raises after `k` bytes were written (socket timeout, server error
or the `InterruptedError` raised by the stop-request check). -/
structure RFile where
  content : Nat
  sizeQueryOk : Bool
  factsSize : Option Nat
  polls : List (Option Nat)
  streamResult : Option Nat

/-- Result of `ftp.size(remote_item_path)` (ftp_worker.py lines 214-218):
`none` when the SIZE command raises. -/
def remoteSizeOf (f : RFile) : Option Nat :=
  if f.sizeQueryOk then some f.content else none

/-- One iteration's counter update in the stability polling loop
(ftp_worker.py lines 286-294): a successful read equal to the previous
reading increments `stable_count`; a successful unequal read resets it to
one; a failed read (`cur = none`) resets it to zero. -/
def gateStep (cnt : Nat) (prev cur : Option Nat) : Nat :=
  if cur ≠ none ∧ cur = prev then cnt + 1
  else if cur ≠ none then 1 else 0

/-- The stability polling loop (ftp_worker.py lines 285-301): it walks the
successive SIZE readings, maintaining `stable_count` and `prev_size`, and
declares the file stable as soon as the counter reaches 2; exhausting the
reading list (the wait window expiring) yields `false`. -/
def stabilityLoop (cnt : Nat) (prev : Option Nat) : List (Option Nat) → Bool
  | [] => false
  | cur :: rest =>
    if 2 ≤ gateStep cnt prev cur then true
    else stabilityLoop (gateStep cnt prev cur) cur rest

/-- Initial size for the stability gate (ftp_worker.py lines 260-273): the
MLSD `size` fact when present, otherwise a fresh `ftp.size` query. -/
def gateInitial (f : RFile) : Option Nat :=
  match f.factsSize with
  | some v => some v
  | none => remoteSizeOf f

/-- Whether the stability gate rejects the file this cycle
(ftp_worker.py lines 257-308): the gate only runs when stability checking
is enabled with a positive wait; an undeterminable initial size means
`assume stable` (proceed); otherwise the polling loop must reach two
consecutive equal reads within the wait window (at most `waitSeconds`
one-second polls). -/
def gateBlocks (s : Settings) (f : RFile) : Bool :=
  if s.enableStability ∧ 0 < s.waitSeconds then
    match gateInitial f with
    | none => false
    | some i => ! stabilityLoop 1 (some i) (f.polls.take s.waitSeconds)
  else false

/-- Outcome classification for one file in the traversal's file branch. -/
inductive FileAct where
  | skip : FileAct
  | unstable : FileAct
  | failAfter : Nat → FileAct
  | download : FileAct
deriving DecidableEq

/-- Decision taken for one remote file given the local state at its
destination path (ftp_worker.py lines 213-345), in source order:
the skip test (local file exists, remote size known, sizes equal), then
the stability gate, then the stream whose failure point (if any) is fixed
by `streamResult`. -/
def fileAction (s : Settings) (f : RFile) (old : Option Nat) : FileAct :=
  if f.sizeQueryOk ∧ old = some f.content then .skip
  else if gateBlocks s f then .unstable
  else
    match f.streamResult with
    | some k => .failAfter k
    | none => .download

/-- Result of processing a file or a directory subtree: files downloaded,
resulting local state, "skipping" log events emitted, the running
`skip_logs_shown` counter, and the remote paths on which `ftp.delete` was
attempted. -/
structure WalkRes where
  count : Nat
  fs : LocalFS
  skipEv : Nat
  shown : Nat
  del : List LPath

/-- The file branch of `download_dir_recursive` (ftp_worker.py 212-369).
Skip branch: local file exists with known, equal remote size; a
"skipping" event is emitted only while `skip_logs_shown` is below
`skip_log_limit`; remote delete is attempted when configured.
Unstable branch: the stability gate timed out, the file is skipped for
this cycle without touching the local state.
Stream-error branch: the partial file of `k` bytes is left at the
temporary path `name + ".part"` (the code has no cleanup) and the
destination is untouched.
Download branch: the stream writes the full content to the temporary
path, which `os.replace` then renames over the destination. -/
def processFile (s : Settings) (dir : LPath) (n : String) (f : RFile)
    (fs : LocalFS) (shown : Nat) : WalkRes :=
  let dest := dir ++ [n]
  let temp := dir ++ [n ++ ".part"]
  match fileAction s f (fs dest) with
  | .skip =>
    ⟨0, fs,
      if shown < s.skipLogLimit then 1 else 0,
      if shown < s.skipLogLimit then shown + 1 else shown,
      if s.deleteAfterDownload then [dest] else []⟩
  | .unstable => ⟨0, fs, 0, shown, []⟩
  | .failAfter k => ⟨0, upd (upd fs temp (some 0)) temp (some k), 0, shown, []⟩
  | .download =>
    ⟨1,
      upd (upd (upd (upd fs temp (some 0)) temp (some f.content)) temp none)
        dest (some f.content),
      0, shown,
      if s.deleteAfterDownload then [dest] else []⟩

/-- Socket timeout applied before streaming (ftp_worker.py line 332):
`sock.settimeout(max(10, per_file_timeout // 2))` — the second argument is
Python floor division. -/
def appliedSocketTimeout (perFileTimeout : Nat) : Nat :=
  max 10 (perFileTimeout / 2)

/-- Name filter applied by the traversal's main loop
(ftp_worker.py lines 205-206, and 188-189 in the NLST fallback). -/
def isDotName (n : String) : Bool := n == "." || n == ".."

mutual

/-- A remote tree node: a file with its operation outcomes, or a directory
whose `Bool` says whether `ftp.cwd` into it succeeds (a failing `cwd`
raises, is caught by the per-directory handler at ftp_worker.py line 370,
and aborts only that subtree). -/
inductive RTree where
  | file : RFile → RTree
  | dir : Bool → REntries → RTree

/-- The entry list of a remote directory, in server listing order. -/
inductive REntries where
  | nil : REntries
  | cons : String → RTree → REntries → REntries

end

/-- The entry loop of `download_dir_recursive` (ftp_worker.py 199-369)
over one directory's listed entries.  `shown` is the per-invocation
`skip_logs_shown` counter (initialised to 0 at line 201 of each call, so
each recursive directory call gets a fresh counter); a subdirectory is
walked with its own fresh counter and a non-enterable subdirectory
contributes nothing (its error is contained at line 370). -/
def walkEntries (s : Settings) (dir : LPath) (e : REntries) (fs : LocalFS)
    (shown : Nat) : WalkRes :=
  match e with
  | .nil => ⟨0, fs, 0, shown, []⟩
  | .cons n t rest =>
    if isDotName n then walkEntries s dir rest fs shown
    else
      match t with
      | .dir ok es =>
        let sub := if ok then walkEntries s (dir ++ [n]) es fs 0
                   else ⟨0, fs, 0, 0, []⟩
        let r := walkEntries s dir rest sub.fs shown
        ⟨sub.count + r.count, r.fs, sub.skipEv + r.skipEv, r.shown,
          sub.del ++ r.del⟩
      | .file f =>
        let p := processFile s dir n f fs shown
        let r := walkEntries s dir rest p.fs p.shown
        ⟨p.count + r.count, r.fs, p.skipEv + r.skipEv, r.shown,
          p.del ++ r.del⟩

/-- Top-level `download_dir_recursive(ftp, remote_path, local_path)` call:
entering the root directory; a failing `cwd` (or a root that is not a
directory) is caught by the handler at line 370 and yields count 0. -/
def downloadDirRecursive (s : Settings) (root : RTree) (fs : LocalFS) :
    WalkRes :=
  match root with
  | .file _ => ⟨0, fs, 0, 0, []⟩
  | .dir ok es => if ok then walkEntries s [] es fs 0 else ⟨0, fs, 0, 0, []⟩

/-- One directory as the listing step sees it: `mlsd = none` means the
MLSD call raises, `mlsd = some items` its entries as `(name, is_dir)`
pairs; `nlst = none` means NLST raises too; `probeDir n` is whether the
`ftp.cwd(name)` classification probe succeeds (directory) for `n`. -/
structure DirListing where
  mlsd : Option (List (String × Bool))
  nlst : Option (List String)
  probeDir : String → Bool

/-- Result of the listing step: the entries produced, the new value of the
cached `_mlsd_supported` flag (`none` = unknown, `some true` = supported,
`some false` = not supported), and which of the two listing commands were
actually issued. -/
structure ListRes where
  items : List (String × Bool)
  mode : Option Bool
  mlsdTried : Bool
  nlstTried : Bool

/-- The NLST fallback's per-name classification loop
(ftp_worker.py lines 187-197): "." and ".." are dropped, every other name
is classified by attempting `cwd(name)`. -/
def nlstClassify (d : DirListing) (ns : List String) : List (String × Bool) :=
  (ns.filter (fun n => ! isDotName n)).map (fun n => (n, d.probeDir n))

/-- The listing step of `download_dir_recursive`
(ftp_worker.py lines 166-197): MLSD is attempted when the cached flag is
unknown (`none`) or supported (`some true`); success records support,
failure records non-support; whenever the MLSD item list is empty —
because MLSD raised, was skipped, or genuinely returned no items — the
NLST fallback runs (a failing NLST yields no names). -/
def listStep (d : DirListing) (mode : Option Bool) : ListRes :=
  let tryM := mode = none ∨ mode = some true
  let m : List (String × Bool) × Option Bool × Bool :=
    if tryM then
      match d.mlsd with
      | some its => (its, some true, true)
      | none => ([], some false, true)
    else ([], mode, false)
  if m.1.isEmpty then
    match d.nlst with
    | some ns => ⟨nlstClassify d ns, m.2.1, m.2.2, true⟩
    | none => ⟨[], m.2.1, m.2.2, true⟩
  else ⟨m.1, m.2.1, m.2.2, false⟩

/-- The connection-related worker state: whether `_ftp_connection` is set,
and the cached `_mlsd_supported` tri-state flag. -/
structure ConnState where
  ftpConn : Bool
  mlsdSupported : Option Bool

/-- The `_cleanup_connections` method (ftp_worker.py lines 505-516): it
quits/closes and clears `_ftp_connection`; it does not touch
`_mlsd_supported`. -/
def cleanupConnections (w : ConnState) : ConnState :=
  ⟨false, w.mlsdSupported⟩

/-- The `_get_or_create_ftp_connection` method (ftp_worker.py 460-496):
reuse the live connection when the liveness probe (`pwd`) succeeds;
otherwise clean up the dead connection and reconnect (retries abstracted
into the single outcome `connectOk`; exhausted retries return `None`,
modelled by the `false` flag).  No branch touches `_mlsd_supported`. -/
def getOrCreateFtpConnection (w : ConnState) (aliveOk connectOk : Bool) :
    ConnState × Bool :=
  if w.ftpConn ∧ aliveOk then (w, true)
  else
    let w1 := if w.ftpConn then cleanupConnections w else w
    if connectOk then (⟨true, w1.mlsdSupported⟩, true) else (w1, false)

/-- The `perform_ftp_download` method (ftp_worker.py lines 136-157): when
`_get_or_create_ftp_connection` returns `None` (connect failed after all
retries) it returns 0 without raising; otherwise it returns the count of
`download_dir_recursive`, whose own per-directory handler (line 370)
catches every error of the top-level `cwd`/listing — including
`error_perm` — so the method's `except` clauses are not reached by
traversal errors and the method never propagates an exception upward. -/
def performFtpDownload (s : Settings) (connected : Bool) (root : RTree)
    (fs : LocalFS) : Nat :=
  if connected then (downloadDirRecursive s root fs).count else 0

/-- One iteration of the failure accounting in `FtpWorker.run`
(ftp_worker.py lines 56-91): a body that returned normally resets
`_connection_failures` only when the count is positive; a body that
raised increments it and, once it reaches `_max_connection_failures = 3`,
`_reset_connections` runs (second component `true`) and zeroes the
counter. -/
def runCycleStep (failures : Nat) (result : Except Unit Nat) : Nat × Bool :=
  match result with
  | .ok c => (if 0 < c then 0 else failures, false)
  | .error _ =>
    let f := failures + 1
    if 3 ≤ f then (0, true) else (f, false)

/-- Value at the destination path after the file branch ran, as a function
of the old value: only a completed download changes it, and then to the
complete content (`os.replace` of the fully streamed temporary file). -/
def destAfter (s : Settings) (f : RFile) (old : Option Nat) : Option Nat :=
  match fileAction s f old with
  | .download => some f.content
  | _ => old

/-- The entry names of a directory listing, in order. -/
def entryNames : REntries → List String
  | .nil => []
  | .cons n _ rest => n :: entryNames rest

/-- Well-formedness of one directory's listing for the idempotence
analysis: names are pairwise distinct and no entry name equals another
entry name with the reserved `.part` suffix appended (otherwise a sibling
transfer's temporary file aliases an existing entry's destination). -/
def NamesOk (e : REntries) : Prop :=
  (entryNames e).Nodup ∧ ∀ a ∈ entryNames e, ¬ (a ++ ".part") ∈ entryNames e

instance (e : REntries) : Decidable (NamesOk e) := by
  unfold NamesOk; infer_instance

/-- Recursive goodness of a listing's children: every file's SIZE query
succeeds and every subdirectory's listing is itself well formed. -/
def goodListB : REntries → Bool
  | .nil => true
  | .cons _ (.file f) rest => f.sizeQueryOk && goodListB rest
  | .cons _ (.dir _ es) rest =>
      (decide (NamesOk es) && goodListB es) && goodListB rest

/-- A well-formed remote directory tree: `NamesOk` at every level and all
remote sizes queryable. -/
def goodEntriesB (e : REntries) : Bool :=
  decide (NamesOk e) && goodListB e

/-- The path `p` lies (weakly) under the directory path `dir`. -/
def isUnder (dir p : LPath) : Prop := ∃ q, p = dir ++ q

/-- Every file entry reachable from `e` (at its recorded directory path)
would not download again against the local state `fs`: its file action on
the current destination value is anything but `.download`.  Entries named
"." or ".." and non-enterable subdirectories are never processed, so
nothing is required of them. -/
def Settled (s : Settings) : LPath → REntries → LocalFS → Prop
  | _, .nil, _ => True
  | dir, .cons n (.file f) rest, fs =>
    if isDotName n then Settled s dir rest fs
    else fileAction s f (fs (dir ++ [n])) ≠ .download ∧ Settled s dir rest fs
  | dir, .cons n (.dir ok es) rest, fs =>
    if isDotName n then Settled s dir rest fs
    else (if ok then Settled s (dir ++ [n]) es fs else True) ∧
      Settled s dir rest fs

/-- The destination paths `Settled` reads: the file entries' destination
paths, recursively (an over-approximation is harmless here, so dot names
and non-enterable directories are included). -/
def DepKey : LPath → REntries → LPath → Prop
  | _, .nil, _ => False
  | dir, .cons n (.file _) rest, p => p = dir ++ [n] ∨ DepKey dir rest p
  | dir, .cons n (.dir _ es) rest, p =>
    DepKey (dir ++ [n]) es p ∨ DepKey dir rest p

/-- Over-approximation of the paths `walkEntries` may write: for each
entry, anything under its destination path, plus its temporary path. -/
def InKeys : LPath → REntries → LPath → Prop
  | _, .nil, _ => False
  | dir, .cons n _ rest, p =>
    isUnder (dir ++ [n]) p ∨ p = dir ++ [n ++ ".part"] ∨ InKeys dir rest p

/-- Number of (sub)directory entries in a listing, recursively. -/
def dirCount : REntries → Nat
  | .nil => 0
  | .cons _ (.file _) rest => dirCount rest
  | .cons _ (.dir _ es) rest => 1 + dirCount es + dirCount rest

/-- Empty local file system. -/
def fsEmpty : LocalFS := fun _ => none

/-- Settings with stability checking and remote deletion off. -/
def sPlain : Settings := ⟨false, false, 0, 5⟩

/-- Settings with `skip_log_limit = 1`. -/
def sLimit1 : Settings := ⟨false, false, 0, 1⟩

/-- Settings with stability checking enabled and a 1-second wait. -/
def sGate : Settings := ⟨false, true, 1, 5⟩

/-- A remote file whose stream raises after 3 of 9 bytes. -/
def fStreamErr : RFile := ⟨9, true, none, [], some 3⟩

/-- A remote file whose single stability poll read fails. -/
def fGate : RFile := ⟨4, true, some 7, [none], none⟩

/-- A remote file whose SIZE query fails. -/
def fNoSize : RFile := ⟨6, false, none, [], none⟩

/-- A remote file of `c` bytes on which every operation succeeds. -/
def fPlain (c : Nat) : RFile := ⟨c, true, none, [], none⟩

/-- Local state with one 2-byte file at `["c"]`. -/
def fsOne : LocalFS := upd fsEmpty ["c"] (some 2)

/-- A directory where MLSD raises and NLST returns one name. -/
def dNoMlsd : DirListing := ⟨none, some ["x"], fun _ => false⟩

/-- A directory where MLSD succeeds with an empty item list. -/
def dEmptyMlsd : DirListing := ⟨some [], some ["x"], fun _ => false⟩

/-- A directory where MLSD succeeds with one item. -/
def dMlsdOk : DirListing := ⟨some [("y", false)], some [], fun _ => false⟩

/-- Remote tree with two skippable files at the root and two more in a
subdirectory. -/
def eSkips : REntries :=
  .cons "f1" (.file (fPlain 1))
    (.cons "f2" (.file (fPlain 1))
      (.cons "sub"
        (.dir true
          (.cons "g1" (.file (fPlain 1))
            (.cons "g2" (.file (fPlain 1)) .nil))) .nil))

/-- Local state matching all four files of `eSkips`. -/
def fsSkips : LocalFS :=
  upd (upd (upd (upd fsEmpty ["f1"] (some 1)) ["f2"] (some 1))
    ["sub", "g1"] (some 1)) ["sub", "g2"] (some 1)

/-- Remote listing containing both `a.part` and `a`: downloading `a`
destroys the already-published local `a.part` (its temporary path aliases
that destination). -/
def ePartClash : REntries :=
  .cons "a.part" (.file (fPlain 5)) (.cons "a" (.file (fPlain 3)) .nil)

/-- One-file well-formed remote listing. -/
def eW : REntries := .cons "w" (.file (fPlain 2)) .nil

/-- A remote file whose stream raises after 2 of 9 bytes. -/
def fStreamErr2 : RFile := ⟨9, true, none, [], some 2⟩

/-- Remote listing with `a.part` (5 bytes, fully transferable) followed by
`a`, whose stream fails after 2 bytes: downloading `a` first truncates the
already-published local `a.part` — its temporary path aliases that
destination — and the failed stream leaves 2 partial bytes there. -/
def eAlias : REntries :=
  .cons "a.part" (.file (fPlain 5)) (.cons "a" (.file fStreamErr2) .nil)

/-- Per-entry destination guarantee relating the local state before and
after a walk: every file entry's destination path afterwards holds either
its previous value or that file's complete content — never a partial
write. -/
def DestSpec : LPath → REntries → LocalFS → LocalFS → Prop
  | _, .nil, _, _ => True
  | dir, .cons n (.file f) rest, fs0, fs1 =>
    (fs1 (dir ++ [n]) = fs0 (dir ++ [n]) ∨
      fs1 (dir ++ [n]) = some f.content) ∧
    DestSpec dir rest fs0 fs1
  | dir, .cons n (.dir _ es) rest, fs0, fs1 =>
    DestSpec (dir ++ [n]) es fs0 fs1 ∧ DestSpec dir rest fs0 fs1

/-- Name well-formedness (`NamesOk`) in every subdirectory of the tree,
with no requirement on the files' operation outcomes. -/
def namesOkDeepB : REntries → Bool
  | .nil => true
  | .cons _ (.file _) rest => namesOkDeepB rest
  | .cons _ (.dir _ es) rest =>
    (decide (NamesOk es) && namesOkDeepB es) && namesOkDeepB rest

/-- Alias-free tree: pairwise-distinct entry names, none equal to a
sibling entry's name with the reserved `.part` suffix appended, at the
root and in every subdirectory. -/
def aliasFreeB (e : REntries) : Bool := decide (NamesOk e) && namesOkDeepB e

theorem ne_part (n : String) : n ≠ n ++ ".part" := by
  intro h
  have h1 := congrArg String.length h
  rw [String.length_append] at h1
  have h2 : (".part" : String).length = 5 := rfl
  omega

theorem append_singleton_ne (dir : LPath) (a b : String) (h : a ≠ b) :
    dir ++ [a] ≠ dir ++ [b] := by
  intro he
  exact h (by simpa using List.append_cancel_left he)

theorem dest_ne_temp (dir : LPath) (n : String) :
    dir ++ [n] ≠ dir ++ [n ++ ".part"] :=
  append_singleton_ne dir n (n ++ ".part") (ne_part n)

theorem processFile_frame (s : Settings) (dir : LPath) (n : String)
    (f : RFile) (fs : LocalFS) (shown : Nat) (p : LPath)
    (h1 : p ≠ dir ++ [n]) (h2 : p ≠ dir ++ [n ++ ".part"]) :
    (processFile s dir n f fs shown).fs p = fs p := by
  cases h : fileAction s f (fs (dir ++ [n])) <;>
    simp [processFile, h, upd, h1, h2]

theorem processFile_dest (s : Settings) (dir : LPath) (n : String)
    (f : RFile) (fs : LocalFS) (shown : Nat) :
    (processFile s dir n f fs shown).fs (dir ++ [n]) =
      destAfter s f (fs (dir ++ [n])) := by
  have hne := dest_ne_temp dir n
  cases h : fileAction s f (fs (dir ++ [n])) <;>
    simp [processFile, destAfter, h, upd, hne]

theorem processFile_count (s : Settings) (dir : LPath) (n : String)
    (f : RFile) (fs : LocalFS) (shown : Nat) :
    (processFile s dir n f fs shown).count =
      (if fileAction s f (fs (dir ++ [n])) = .download then 1 else 0) := by
  cases h : fileAction s f (fs (dir ++ [n])) <;> simp [processFile, h]

theorem destAfter_no_download (s : Settings) (f : RFile) (old : Option Nat)
    (hq : f.sizeQueryOk = true) :
    fileAction s f (destAfter s f old) ≠ .download := by
  unfold destAfter
  cases h : fileAction s f old with
  | download => simp [fileAction, hq]
  | skip => rw [h]; simp
  | unstable => rw [h]; simp
  | failAfter k => rw [h]; simp

/-- Claim C1 counterexample: when the stream for `a` raises after 3 bytes,
the partial temporary file `a.part` is NOT removed — it remains on disk,
contradicting the claim that the partial temp file is discarded and no
temporary file remains after the error is handled. -/
theorem C1_temp_not_discarded_cex :
    ¬ ((processFile sPlain [] "a" fStreamErr fsEmpty 0).fs ["a.part"] = none) := by
  decide

/-- Claim C1 (amended): when streaming raises after `k` bytes (including a
cancellation signaled mid-stream), the transfer's outcome is Failed (it is
not counted) and the destination is untouched, but the partial temporary
file of `k` bytes is left behind at `destination + ".part"` rather than
removed. -/
theorem C1_stream_error_amended (s : Settings) (dir : LPath) (n : String)
    (f : RFile) (fs : LocalFS) (shown k : Nat)
    (h : fileAction s f (fs (dir ++ [n])) = .failAfter k) :
    (processFile s dir n f fs shown).count = 0 ∧
    (processFile s dir n f fs shown).fs (dir ++ [n]) = fs (dir ++ [n]) ∧
    (processFile s dir n f fs shown).fs (dir ++ [n ++ ".part"]) = some k := by
  have hne := dest_ne_temp dir n
  simp [processFile, h, upd, hne]

/-- Witness for C1 (amended) at a concrete stream error. -/
theorem C1_stream_error_amended_w :
    (processFile sPlain [] "a" fStreamErr fsEmpty 0).count = 0 ∧
    (processFile sPlain [] "a" fStreamErr fsEmpty 0).fs ([] ++ ["a"]) =
      fsEmpty ([] ++ ["a"]) ∧
    (processFile sPlain [] "a" fStreamErr fsEmpty 0).fs ([] ++ ["a" ++ ".part"]) =
      some 3 :=
  C1_stream_error_amended sPlain [] "a" fStreamErr fsEmpty 0 3 (by decide)

/-- Claim C6: in the stability gate, a failed size read resets the
consecutive-equal counter to zero; after a failed read a single further
read never concludes stability while two further equal successful reads
do; and when the wait window expires without two consecutive equal reads
the gate rejects and the file branch skips the file for this cycle without
touching the local state.  The last conjunct derives the `unstable`
classification from the loop returning false on the truncated poll
window. -/
theorem C6_stability_gate :
    (∀ cnt prev, gateStep cnt prev none = 0) ∧
    (∀ cnt prev c, stabilityLoop cnt prev [none, c] = false) ∧
    (∀ cnt prev v rest,
      stabilityLoop cnt prev (none :: some v :: some v :: rest) = true) ∧
    (∀ s dir n f fs shown, fileAction s f (fs (dir ++ [n])) = .unstable →
      (processFile s dir n f fs shown).count = 0 ∧
      (processFile s dir n f fs shown).fs = fs) ∧
    (∀ s f old i, s.enableStability = true → 0 < s.waitSeconds →
      gateInitial f = some i →
      stabilityLoop 1 (some i) (f.polls.take s.waitSeconds) = false →
      ¬ (f.sizeQueryOk = true ∧ old = some f.content) →
      fileAction s f old = .unstable) := by
  refine ⟨?_, ?_, ?_, ?_, ?_⟩
  · intro cnt prev; simp [gateStep]
  · intro cnt prev c
    cases c <;> simp [stabilityLoop, gateStep]
  · intro cnt prev v rest
    simp [stabilityLoop, gateStep]
  · intro s dir n f fs shown h
    simp [processFile, h]
  · intro s f old i h1 h2 h3 h4 h5
    have hb : gateBlocks s f = true := by
      simp [gateBlocks, h1, h2, h3, h4]
    simp [fileAction, hb, h5]

/-- Witness for C6 at a concrete failing poll. -/
theorem C6_stability_gate_w :
    (processFile sGate [] "u" fGate fsEmpty 0).count = 0 ∧
    (processFile sGate [] "u" fGate fsEmpty 0).fs = fsEmpty :=
  C6_stability_gate.2.2.2.1 sGate [] "u" fGate fsEmpty 0
    (C6_stability_gate.2.2.2.2 sGate fGate (fsEmpty ([] ++ ["u"])) 7 rfl
      (by decide) rfl (by decide) (by decide))

/-- Claim C8 counterexample: for the odd per-file timeout 21 the applied
socket timeout is `max 10 (21 // 2) = 10` seconds, which is strictly below
`max(10, 21/2) = 10.5`, so the applied timeout is not "at least
max(10, perFileTimeoutSeconds/2)" under exact division. -/
theorem C8_socket_timeout_cex :
    ¬ (max 10 ((21 : ℚ) / 2) ≤ (appliedSocketTimeout 21 : ℚ)) := by
  norm_num [appliedSocketTimeout]

/-- Claim C8 (amended): the applied socket timeout is exactly
`max(10, ⌊perFileTimeout/2⌋)` seconds; it is always at least 10 and at
least `(perFileTimeout - 1)/2`, and for every even timeout it is at least
`max(10, perFileTimeout/2)` exactly as claimed. -/
theorem C8_socket_timeout_amended (t : Nat) :
    appliedSocketTimeout t = max 10 (t / 2) ∧
    10 ≤ appliedSocketTimeout t ∧
    ((t : ℚ) - 1) / 2 ≤ (appliedSocketTimeout t : ℚ) ∧
    (t % 2 = 0 → max 10 ((t : ℚ) / 2) ≤ (appliedSocketTimeout t : ℚ)) := by
  have hfloor : ((t : ℚ) - 1) / 2 ≤ ((t / 2 : Nat) : ℚ) := by
    rw [div_le_iff₀ (by norm_num)]
    have h : t ≤ 2 * (t / 2) + 1 := by omega
    have h2 : (t : ℚ) ≤ 2 * ((t / 2 : Nat) : ℚ) + 1 := by exact_mod_cast h
    linarith
  have hcast : ((t / 2 : Nat) : ℚ) ≤ (appliedSocketTimeout t : ℚ) := by
    exact_mod_cast Nat.cast_le.mpr (le_max_right 10 (t / 2))
  refine ⟨rfl, le_max_left 10 (t / 2), le_trans hfloor hcast, ?_⟩
  · intro hev
    have heq : 2 * (t / 2) = t := by omega
    have heqq : ((t / 2 : Nat) : ℚ) = (t : ℚ) / 2 := by
      rw [eq_div_iff (by norm_num : (2 : ℚ) ≠ 0)]
      rw [mul_comm]
      exact_mod_cast heq
    refine max_le ?_ ?_
    · exact_mod_cast Nat.cast_le.mpr (le_max_left 10 (t / 2))
    · rw [← heqq]; exact hcast

/-- Witness for C8 (amended) at the even timeout 22. -/
theorem C8_socket_timeout_amended_w :
    max 10 ((22 : ℚ) / 2) ≤ (appliedSocketTimeout 22 : ℚ) :=
  (C8_socket_timeout_amended 22).2.2.2 (by norm_num)

/-- Claim C9: whenever MLSD succeeds but returns an empty entry sequence,
the listing step records extended-listing support in the capability flag
and nonetheless issues the NLST fallback for that same directory instead
of returning the empty extended result. -/
theorem C9_empty_mlsd_falls_back (d : DirListing) (st : Option Bool)
    (hm : d.mlsd = some []) (hst : st ≠ some false) :
    (listStep d st).nlstTried = true ∧ (listStep d st).mlsdTried = true ∧
    (listStep d st).mode = some true := by
  have htry : st = none ∨ st = some true := by
    cases st with
    | none => exact Or.inl rfl
    | some b =>
      cases b with
      | false => exact absurd rfl hst
      | true => exact Or.inr rfl
  rcases htry with h | h <;> subst h <;>
    cases hn : d.nlst <;> simp [listStep, hm, hn]

/-- Witness for C9 at a concrete empty MLSD listing. -/
theorem C9_empty_mlsd_falls_back_w :
    (listStep dEmptyMlsd none).nlstTried = true ∧
    (listStep dEmptyMlsd none).mlsdTried = true ∧
    (listStep dEmptyMlsd none).mode = some true :=
  C9_empty_mlsd_falls_back dEmptyMlsd none (by decide) (by decide)

/-- Claim C10: for a file whose SIZE query fails, the already-downloaded
test never fires even when a local file exists at the destination: no
"skipping" event is emitted, the file is downloaded again and the existing
local file is overwritten with the complete new content. -/
theorem C10_unknown_size_redownloads (s : Settings) (dir : LPath)
    (n : String) (f : RFile) (fs : LocalFS) (shown sz : Nat)
    (hq : f.sizeQueryOk = false) (hex : fs (dir ++ [n]) = some sz)
    (hst : s.enableStability = false) (hstream : f.streamResult = none) :
    (processFile s dir n f fs shown).skipEv = 0 ∧
    (processFile s dir n f fs shown).count = 1 ∧
    (processFile s dir n f fs shown).fs (dir ++ [n]) = some f.content := by
  have hact : fileAction s f (fs (dir ++ [n])) = .download := by
    simp [fileAction, gateBlocks, hq, hst, hstream]
  simp [processFile, hact, upd]

/-- Witness for C10 at a concrete file with unknown remote size and an
existing 2-byte local file. -/
theorem C10_unknown_size_redownloads_w :
    (processFile sPlain [] "c" fNoSize fsOne 0).skipEv = 0 ∧
    (processFile sPlain [] "c" fNoSize fsOne 0).count = 1 ∧
    (processFile sPlain [] "c" fNoSize fsOne 0).fs ([] ++ ["c"]) =
      some fNoSize.content :=
  C10_unknown_size_redownloads sPlain [] "c" fNoSize fsOne 0 2
    (by decide) (by decide) (by decide) (by decide)

/-- Claim C3 counterexample: after a session in which MLSD failed (flag
cached as Fallback), tearing the connection down with
`_cleanup_connections` and reconnecting leaves the flag at `some false` —
it is not reset to Unknown — and the next listing on the fresh session
does not re-probe MLSD even though the new server-side directory supports
it. -/
theorem C3_flag_not_reset_cex :
    ((getOrCreateFtpConnection
        (cleanupConnections ⟨true, (listStep dNoMlsd none).mode⟩)
        false true).1.mlsdSupported = some false) ∧
    ¬ ((getOrCreateFtpConnection
        (cleanupConnections ⟨true, (listStep dNoMlsd none).mode⟩)
        false true).1.mlsdSupported = none) ∧
    ((listStep dMlsdOk
        (getOrCreateFtpConnection
          (cleanupConnections ⟨true, (listStep dNoMlsd none).mode⟩)
          false true).1.mlsdSupported).mlsdTried = false) := by
  refine ⟨rfl, by decide, rfl⟩

/-- Claim C3 (amended): the cached listing-capability flag is never reset:
`_cleanup_connections` and `_get_or_create_ftp_connection` both leave
`_mlsd_supported` unchanged, so it persists across teardown and reconnect
for the worker's lifetime; once Fallback, extended listing is never
attempted again; and while the flag records Extended, MLSD is re-invoked
per directory and a later MLSD failure re-determines the flag to
Fallback. -/
theorem C3_flag_never_reset_amended (w : ConnState) (alive conn : Bool)
    (d : DirListing) :
    (cleanupConnections w).mlsdSupported = w.mlsdSupported ∧
    (getOrCreateFtpConnection w alive conn).1.mlsdSupported =
      w.mlsdSupported ∧
    (listStep d (some false)).mlsdTried = false ∧
    (d.mlsd = none →
      (listStep d none).mode = some false ∧
      (listStep d (some true)).mode = some false) := by
  refine ⟨rfl, ?_, ?_, ?_⟩
  · cases w with
    | mk fc ms =>
      cases fc <;> cases alive <;> cases conn <;>
        simp [getOrCreateFtpConnection, cleanupConnections]
  · cases hn : d.nlst <;> simp [listStep, hn]
  · intro hm
    cases hn : d.nlst <;> simp [listStep, hm, hn]

/-- Witness for C3 (amended) at a concrete directory whose MLSD raises. -/
theorem C3_flag_never_reset_amended_w :
    (listStep dNoMlsd none).mode = some false ∧
    (listStep dNoMlsd (some true)).mode = some false :=
  (C3_flag_never_reset_amended ⟨true, none⟩ true true dNoMlsd).2.2.2 rfl

/-- Claim C5 counterexample: a cycle whose connect fails after exhausting
retries, and a cycle whose top-level listing raises a permission error
(modelled by the non-enterable root, whose error the per-directory handler
at line 370 swallows), both return count 0 without raising, so the
scheduler's consecutive-failure counter stays at 0 instead of being
incremented. -/
theorem C5_errors_not_counted_cex :
    performFtpDownload sPlain false (.dir true .nil) fsEmpty = 0 ∧
    performFtpDownload sPlain true (.dir false .nil) fsEmpty = 0 ∧
    runCycleStep 0
      (Except.ok (performFtpDownload sPlain false (.dir true .nil) fsEmpty)) =
      (0, false) ∧
    ¬ ((runCycleStep 0
        (Except.ok
          (performFtpDownload sPlain true (.dir false .nil) fsEmpty))).1 = 1) := by
  refine ⟨rfl, rfl, rfl, by decide⟩

/-- Claim C5 (amended): connect failures after exhausted retries and
top-level listing errors are swallowed below the scheduler — the cycle
body returns count 0 and a zero count leaves the consecutive-failure
counter unchanged.  Only an exception escaping the run-loop body
increments the counter, and when it reaches the threshold 3 the session is
force-released (`_reset_connections`) with the counter reset to zero. -/
theorem C5_failure_accounting_amended (s : Settings) (root : RTree)
    (es : REntries) (fs : LocalFS) (fails c : Nat) :
    performFtpDownload s false root fs = 0 ∧
    (downloadDirRecursive s (.dir false es) fs).count = 0 ∧
    runCycleStep fails (Except.ok c) = (if 0 < c then 0 else fails, false) ∧
    (fails + 1 < 3 → runCycleStep fails (Except.error ()) = (fails + 1, false)) ∧
    (3 ≤ fails + 1 → runCycleStep fails (Except.error ()) = (0, true)) := by
  refine ⟨rfl, by simp [downloadDirRecursive], rfl, ?_, ?_⟩
  · intro h
    simp only [runCycleStep]
    rw [if_neg (by omega)]
  · intro h
    simp only [runCycleStep]
    rw [if_pos h]

/-- Witness for C5 (amended): a first failure increments the counter to 1;
a third consecutive failure triggers the reset and zeroes it. -/
theorem C5_failure_accounting_amended_w :
    runCycleStep 0 (Except.error ()) = (1, false) ∧
    runCycleStep 2 (Except.error ()) = (0, true) :=
  ⟨(C5_failure_accounting_amended sPlain (.dir true .nil) .nil fsEmpty 0 0).2.2.2.1
      (by decide),
    (C5_failure_accounting_amended sPlain (.dir true .nil) .nil fsEmpty 2 0).2.2.2.2
      (by decide)⟩

theorem processFile_skip_budget (s : Settings) (dir : LPath) (n : String)
    (f : RFile) (fs : LocalFS) (shown : Nat) :
    (processFile s dir n f fs shown).skipEv +
        (s.skipLogLimit - (processFile s dir n f fs shown).shown) ≤
      s.skipLogLimit - shown := by
  cases h : fileAction s f (fs (dir ++ [n])) <;> simp [processFile, h]
  split <;> omega

theorem walk_skipEv_budget : ∀ (s : Settings) (dir : LPath) (e : REntries)
    (fs : LocalFS) (shown : Nat),
    (walkEntries s dir e fs shown).skipEv +
        (s.skipLogLimit - (walkEntries s dir e fs shown).shown) ≤
      (s.skipLogLimit - shown) + s.skipLogLimit * dirCount e
  | s, dir, .nil, fs, shown => by simp [walkEntries, dirCount]
  | s, dir, .cons n t rest, fs, shown => by
    cases hd : isDotName n with
    | true =>
      have h := walk_skipEv_budget s dir rest fs shown
      cases t <;> simp [walkEntries, hd, dirCount] <;>
        [exact h;
         (rw [Nat.mul_add, Nat.mul_add, Nat.mul_one]; omega)]
    | false =>
      cases t with
      | file f =>
        have h1 := processFile_skip_budget s dir n f fs shown
        have h2 := walk_skipEv_budget s dir rest
          (processFile s dir n f fs shown).fs
          (processFile s dir n f fs shown).shown
        simp only [walkEntries, hd, Bool.false_eq_true, if_false, dirCount]
        omega
      | dir ok es =>
        cases ok with
        | true =>
          have h1 := walk_skipEv_budget s (dir ++ [n]) es fs 0
          have h2 := walk_skipEv_budget s dir rest
            (walkEntries s (dir ++ [n]) es fs 0).fs shown
          simp only [walkEntries, hd, Bool.false_eq_true, if_false,
            if_true, dirCount]
          rw [Nat.mul_add, Nat.mul_add, Nat.mul_one]
          omega
        | false =>
          have h2 := walk_skipEv_budget s dir rest fs shown
          simp only [walkEntries, hd, Bool.false_eq_true, if_false, dirCount]
          rw [Nat.mul_add, Nat.mul_add, Nat.mul_one]
          omega

/-- Claim C4 counterexample: with `skip_log_limit = 1`, a cycle over a
root holding two skippable files plus a subdirectory holding two more
emits 2 "skipping" events — more than the limit — because the
`skip_logs_shown` counter is re-initialised in every recursive directory
call rather than being a single per-cycle counter. -/
theorem C4_skip_log_cex :
    ¬ ((walkEntries sLimit1 [] eSkips fsSkips 0).skipEv ≤
        sLimit1.skipLogLimit) := by
  decide

/-- Claim C4 (amended): the skip-log counter is local to each invocation
of `download_dir_recursive`, so each directory emits at most
`skip_log_limit` "skipping" events; a whole cycle therefore emits at most
`skip_log_limit * (1 + number of subdirectories)` events, not
`skip_log_limit` overall. -/
theorem C4_skip_log_per_dir_amended (s : Settings) (dir : LPath)
    (e : REntries) (fs : LocalFS) :
    (walkEntries s dir e fs 0).skipEv ≤ s.skipLogLimit * (1 + dirCount e) := by
  have h := walk_skipEv_budget s dir e fs 0
  rw [Nat.mul_add, Nat.mul_one]
  omega

theorem isUnder_refl (dir : LPath) : isUnder dir dir := ⟨[], by simp⟩

theorem isUnder_extend (dir : LPath) (x : String) (p : LPath)
    (h : isUnder (dir ++ [x]) p) : isUnder dir p := by
  obtain ⟨q, hq⟩ := h
  exact ⟨[x] ++ q, by simp [hq]⟩

theorem inKeys_char : ∀ (dir : LPath) (e : REntries) (p : LPath),
    InKeys dir e p →
    ∃ m, m ∈ entryNames e ∧
      (isUnder (dir ++ [m]) p ∨ p = dir ++ [m ++ ".part"])
  | dir, .nil, p, h => absurd h (by simp [InKeys])
  | dir, .cons n t rest, p, h => by
    simp only [InKeys] at h
    rcases h with h | h | h
    · exact ⟨n, by simp [entryNames], Or.inl h⟩
    · exact ⟨n, by simp [entryNames], Or.inr h⟩
    · obtain ⟨m, hm, hc⟩ := inKeys_char dir rest p h
      exact ⟨m, by simp [entryNames, hm], hc⟩

theorem inKeys_isUnder (dir : LPath) (e : REntries) (p : LPath)
    (h : InKeys dir e p) : isUnder dir p := by
  obtain ⟨m, _, hc⟩ := inKeys_char dir e p h
  rcases hc with hc | hc
  · exact isUnder_extend dir m p hc
  · exact ⟨[m ++ ".part"], hc⟩

theorem walk_frame : ∀ (s : Settings) (dir : LPath) (e : REntries)
    (fs : LocalFS) (shown : Nat) (p : LPath),
    ¬ InKeys dir e p → (walkEntries s dir e fs shown).fs p = fs p
  | _, _, .nil, _, _, _, _ => rfl
  | s, dir, .cons n t rest, fs, shown, p, h => by
    simp only [InKeys, not_or] at h
    obtain ⟨h1, h2, h3⟩ := h
    have hdest : p ≠ dir ++ [n] := by
      intro he; exact h1 (he ▸ isUnder_refl (dir ++ [n]))
    cases hd : isDotName n with
    | true =>
      cases t <;> simp only [walkEntries, hd, if_true] <;>
        exact walk_frame s dir rest fs shown p h3
    | false =>
      cases t with
      | file f =>
        simp only [walkEntries, hd, Bool.false_eq_true, if_false]
        rw [walk_frame s dir rest _ _ p h3]
        exact processFile_frame s dir n f fs shown p hdest h2
      | dir ok es =>
        cases ok with
        | true =>
          simp only [walkEntries, hd, Bool.false_eq_true, if_false, if_true]
          rw [walk_frame s dir rest _ _ p h3]
          exact walk_frame s (dir ++ [n]) es fs 0 p
            (fun hk => h1 (inKeys_isUnder _ es p hk))
        | false =>
          simp only [walkEntries, hd, Bool.false_eq_true, if_false]
          exact walk_frame s dir rest fs shown p h3

theorem depKey_char : ∀ (dir : LPath) (e : REntries) (p : LPath),
    DepKey dir e p → ∃ m, m ∈ entryNames e ∧ isUnder (dir ++ [m]) p
  | dir, .nil, p, h => absurd h (by simp [DepKey])
  | dir, .cons n (.file f) rest, p, h => by
    simp only [DepKey] at h
    rcases h with h | h
    · exact ⟨n, by simp [entryNames], h ▸ isUnder_refl _⟩
    · obtain ⟨m, hm, hu⟩ := depKey_char dir rest p h
      exact ⟨m, by simp [entryNames, hm], hu⟩
  | dir, .cons n (.dir ok es) rest, p, h => by
    simp only [DepKey] at h
    rcases h with h | h
    · obtain ⟨m, _, hq⟩ := depKey_char (dir ++ [n]) es p h
      exact ⟨n, by simp [entryNames], isUnder_extend _ m p hq⟩
    · obtain ⟨m, hm, hu⟩ := depKey_char dir rest p h
      exact ⟨m, by simp [entryNames, hm], hu⟩

theorem settled_congr : ∀ (s : Settings) (dir : LPath) (e : REntries)
    (fs fs' : LocalFS),
    (∀ p, DepKey dir e p → fs p = fs' p) →
    Settled s dir e fs → Settled s dir e fs'
  | _, _, .nil, _, _, _, _ => trivial
  | s, dir, .cons n (.file f) rest, fs, fs', hag, hs => by
    have hrest : ∀ p, DepKey dir rest p → fs p = fs' p := by
      intro p hp
      exact hag p (by simp only [DepKey]; exact Or.inr hp)
    cases hd : isDotName n with
    | true =>
      simp only [Settled, hd, if_true] at hs ⊢
      exact settled_congr s dir rest fs fs' hrest hs
    | false =>
      simp only [Settled, hd, Bool.false_eq_true, if_false] at hs ⊢
      refine ⟨?_, settled_congr s dir rest fs fs' hrest hs.2⟩
      have hd2 : fs (dir ++ [n]) = fs' (dir ++ [n]) :=
        hag _ (by simp [DepKey])
      rw [← hd2]
      exact hs.1
  | s, dir, .cons n (.dir ok es) rest, fs, fs', hag, hs => by
    have hrest : ∀ p, DepKey dir rest p → fs p = fs' p := by
      intro p hp
      exact hag p (by simp only [DepKey]; exact Or.inr hp)
    cases hd : isDotName n with
    | true =>
      simp only [Settled, hd, if_true] at hs ⊢
      exact settled_congr s dir rest fs fs' hrest hs
    | false =>
      simp only [Settled, hd, Bool.false_eq_true, if_false] at hs ⊢
      refine ⟨?_, settled_congr s dir rest fs fs' hrest hs.2⟩
      cases ok with
      | true =>
        simp only [if_true] at hs ⊢
        exact settled_congr s (dir ++ [n]) es fs fs'
          (fun p hp => hag p (by simp only [DepKey]; exact Or.inl hp)) hs.1
      | false => simp

theorem namesOk_tail (n : String) (t : RTree) (rest : REntries)
    (h : NamesOk (.cons n t rest)) : NamesOk rest := by
  obtain ⟨h1, h2⟩ := h
  simp only [entryNames, List.nodup_cons] at h1
  refine ⟨h1.2, ?_⟩
  intro a ha hpa
  exact h2 a (by simp [entryNames, ha]) (by simp [entryNames, hpa])

theorem namesOk_head_notin (n : String) (t : RTree) (rest : REntries)
    (h : NamesOk (.cons n t rest)) : n ∉ entryNames rest := by
  have h1 := h.1
  simp only [entryNames, List.nodup_cons] at h1
  exact h1.1

theorem namesOk_no_part_alias (n : String) (t : RTree) (rest : REntries)
    (h : NamesOk (.cons n t rest)) (m : String)
    (hm : m ∈ entryNames rest) : ¬ n = m ++ ".part" := by
  intro he
  exact h.2 m (by simp [entryNames, hm]) (by simp [entryNames, ← he])

theorem namesOk_head_part_notin (n : String) (t : RTree) (rest : REntries)
    (h : NamesOk (.cons n t rest)) : (n ++ ".part") ∉ entryNames rest := by
  intro hm
  exact h.2 n (by simp [entryNames]) (by simp [entryNames, hm])

theorem goodEntriesB_cons_file (n : String) (f : RFile) (rest : REntries)
    (h : goodEntriesB (.cons n (.file f) rest) = true) :
    NamesOk (.cons n (.file f) rest) ∧ f.sizeQueryOk = true ∧
      goodEntriesB rest = true := by
  simp only [goodEntriesB, goodListB, Bool.and_eq_true,
    decide_eq_true_eq] at h ⊢
  exact ⟨h.1, h.2.1, namesOk_tail n (.file f) rest h.1, h.2.2⟩

theorem goodEntriesB_cons_dir (n : String) (ok : Bool) (es : REntries)
    (rest : REntries)
    (h : goodEntriesB (.cons n (.dir ok es) rest) = true) :
    NamesOk (.cons n (.dir ok es) rest) ∧ goodEntriesB es = true ∧
      goodEntriesB rest = true := by
  simp only [goodEntriesB, goodListB, Bool.and_eq_true,
    decide_eq_true_eq] at h ⊢
  exact ⟨h.1, ⟨h.2.1.1, h.2.1.2⟩, namesOk_tail n (.dir ok es) rest h.1, h.2.2⟩

theorem under_singleton (dir : LPath) (m n : String)
    (h : isUnder (dir ++ [m]) (dir ++ [n])) : m = n := by
  obtain ⟨q, hq⟩ := h
  rw [List.append_assoc] at hq
  have h2 := List.append_cancel_left hq
  injection h2 with h3 _
  exact h3.symm

theorem destAfter_eq_of_not_download (s : Settings) (f : RFile)
    (old : Option Nat) (h : fileAction s f old ≠ .download) :
    destAfter s f old = old := by
  cases hf : fileAction s f old with
  | download => exact absurd hf h
  | skip => simp [destAfter, hf]
  | unstable => simp [destAfter, hf]
  | failAfter k => simp [destAfter, hf]

theorem not_inKeys_dest (dir : LPath) (n : String) (t : RTree)
    (rest : REntries) (h : NamesOk (.cons n t rest)) :
    ¬ InKeys dir rest (dir ++ [n]) := by
  intro hk
  obtain ⟨m, hm, hc⟩ := inKeys_char dir rest _ hk
  rcases hc with hc | hc
  · exact namesOk_head_notin n t rest h (under_singleton dir m n hc ▸ hm)
  · have h2 := List.append_cancel_left hc
    injection h2 with h3 _
    exact namesOk_no_part_alias n t rest h m hm h3

theorem not_depKey_temp (dir : LPath) (n : String) (t : RTree)
    (rest : REntries) (h : NamesOk (.cons n t rest)) :
    ¬ DepKey dir rest (dir ++ [n ++ ".part"]) := by
  intro hk
  obtain ⟨m, hm, hc⟩ := depKey_char dir rest _ hk
  have hmn := under_singleton dir m (n ++ ".part") hc
  exact namesOk_head_part_notin n t rest h (hmn ▸ hm)

theorem not_inKeys_under (dir : LPath) (n : String) (t : RTree)
    (rest : REntries) (h : NamesOk (.cons n t rest)) (p : LPath)
    (hp : isUnder (dir ++ [n]) p) : ¬ InKeys dir rest p := by
  intro hk
  obtain ⟨q, hq⟩ := hp
  obtain ⟨m, hm, hc⟩ := inKeys_char dir rest p hk
  rcases hc with hc | hc
  · obtain ⟨q', hq'⟩ := hc
    rw [hq, List.append_assoc, List.append_assoc] at hq'
    have h2 := List.append_cancel_left hq'
    injection h2 with h3 _
    exact namesOk_head_notin n t rest h (h3 ▸ hm)
  · rw [hq] at hc
    rw [List.append_assoc] at hc
    have h2 := List.append_cancel_left hc
    injection h2 with h3 _
    exact namesOk_no_part_alias n t rest h m hm h3

theorem inKeys_of_mem : ∀ (dir : LPath) (e : REntries) (m : String)
    (p : LPath), m ∈ entryNames e → isUnder (dir ++ [m]) p →
    InKeys dir e p
  | _, .nil, m, _, hm, _ => absurd hm (by simp [entryNames])
  | dir, .cons n t rest, m, p, hm, hu => by
    simp only [entryNames, List.mem_cons] at hm
    simp only [InKeys]
    rcases hm with hm | hm
    · exact Or.inl (hm ▸ hu)
    · exact Or.inr (Or.inr (inKeys_of_mem dir rest m p hm hu))

theorem depKey_inKeys (dir : LPath) (e : REntries) (p : LPath)
    (h : DepKey dir e p) : InKeys dir e p := by
  obtain ⟨m, hm, hu⟩ := depKey_char dir e p h
  exact inKeys_of_mem dir e m p hm hu

theorem depKey_isUnder (dir : LPath) (e : REntries) (p : LPath)
    (h : DepKey dir e p) : isUnder dir p := by
  obtain ⟨m, _, hu⟩ := depKey_char dir e p h
  exact isUnder_extend dir m p hu

theorem walk_establishes : ∀ (s : Settings) (dir : LPath) (e : REntries)
    (fs : LocalFS) (shown : Nat), goodEntriesB e = true →
    Settled s dir e ((walkEntries s dir e fs shown).fs)
  | _, _, .nil, _, _, _ => trivial
  | s, dir, .cons n (.file f) rest, fs, shown, hg => by
    obtain ⟨hnames, hq, hgrest⟩ := goodEntriesB_cons_file n f rest hg
    cases hd : isDotName n with
    | true =>
      simp only [walkEntries, Settled, hd, if_true]
      exact walk_establishes s dir rest fs shown hgrest
    | false =>
      simp only [walkEntries, Settled, hd, Bool.false_eq_true, if_false]
      constructor
      · have hfr := walk_frame s dir rest (processFile s dir n f fs shown).fs
          (processFile s dir n f fs shown).shown (dir ++ [n])
          (not_inKeys_dest dir n (.file f) rest hnames)
        rw [hfr, processFile_dest]
        exact destAfter_no_download s f _ hq
      · exact walk_establishes s dir rest _ _ hgrest
  | s, dir, .cons n (.dir ok es) rest, fs, shown, hg => by
    obtain ⟨hnames, hges, hgrest⟩ := goodEntriesB_cons_dir n ok es rest hg
    cases hd : isDotName n with
    | true =>
      simp only [walkEntries, Settled, hd, if_true]
      exact walk_establishes s dir rest fs shown hgrest
    | false =>
      cases ok with
      | true =>
        simp only [walkEntries, Settled, hd, Bool.false_eq_true, if_false,
          if_true]
        constructor
        · have hsub := walk_establishes s (dir ++ [n]) es fs 0 hges
          refine settled_congr s (dir ++ [n]) es _ _ ?_ hsub
          intro p hp
          exact (walk_frame s dir rest _ shown p
            (fun hk =>
              not_inKeys_under dir n (.dir true es) rest hnames p
                (depKey_isUnder (dir ++ [n]) es p hp) hk)).symm
        · exact walk_establishes s dir rest _ shown hgrest
      | false =>
        simp only [walkEntries, Settled, hd, Bool.false_eq_true, if_false]
        exact ⟨trivial, walk_establishes s dir rest fs shown hgrest⟩

theorem settled_walk_zero : ∀ (s : Settings) (dir : LPath) (e : REntries)
    (fs : LocalFS) (shown : Nat), goodEntriesB e = true →
    Settled s dir e fs → (walkEntries s dir e fs shown).count = 0
  | _, _, .nil, _, _, _, _ => rfl
  | s, dir, .cons n (.file f) rest, fs, shown, hg, hs => by
    obtain ⟨hnames, hq, hgrest⟩ := goodEntriesB_cons_file n f rest hg
    cases hd : isDotName n with
    | true =>
      simp only [Settled, hd, if_true] at hs
      simp only [walkEntries, hd, if_true]
      exact settled_walk_zero s dir rest fs shown hgrest hs
    | false =>
      simp only [Settled, hd, Bool.false_eq_true, if_false] at hs
      obtain ⟨h1, h2⟩ := hs
      have hpc : (processFile s dir n f fs shown).count = 0 := by
        rw [processFile_count]
        simp [h1]
      have hagree : ∀ p, DepKey dir rest p →
          fs p = (processFile s dir n f fs shown).fs p := by
        intro p hp
        by_cases hpd : p = dir ++ [n]
        · subst hpd
          rw [processFile_dest, destAfter_eq_of_not_download s f _ h1]
        · by_cases hpt : p = dir ++ [n ++ ".part"]
          · exact absurd (hpt ▸ hp)
              (not_depKey_temp dir n (.file f) rest hnames)
          · exact (processFile_frame s dir n f fs shown p hpd hpt).symm
      have hrest := settled_walk_zero s dir rest
        (processFile s dir n f fs shown).fs
        (processFile s dir n f fs shown).shown hgrest
        (settled_congr s dir rest fs _ hagree h2)
      simp only [walkEntries, hd, Bool.false_eq_true, if_false]
      rw [hpc, hrest]
  | s, dir, .cons n (.dir ok es) rest, fs, shown, hg, hs => by
    obtain ⟨hnames, hges, hgrest⟩ := goodEntriesB_cons_dir n ok es rest hg
    cases hd : isDotName n with
    | true =>
      simp only [Settled, hd, if_true] at hs
      simp only [walkEntries, hd, if_true]
      exact settled_walk_zero s dir rest fs shown hgrest hs
    | false =>
      simp only [Settled, hd, Bool.false_eq_true, if_false] at hs
      obtain ⟨h1, h2⟩ := hs
      cases ok with
      | true =>
        simp only [if_true] at h1
        have hsub := settled_walk_zero s (dir ++ [n]) es fs 0 hges h1
        have hagree : ∀ p, DepKey dir rest p →
            fs p = (walkEntries s (dir ++ [n]) es fs 0).fs p := by
          intro p hp
          refine (walk_frame s (dir ++ [n]) es fs 0 p ?_).symm
          intro hk
          exact not_inKeys_under dir n (.dir true es) rest hnames p
            (inKeys_isUnder (dir ++ [n]) es p hk) (depKey_inKeys dir rest p hp)
        have hrest := settled_walk_zero s dir rest
          (walkEntries s (dir ++ [n]) es fs 0).fs shown hgrest
          (settled_congr s dir rest fs _ hagree h2)
        simp only [walkEntries, hd, Bool.false_eq_true, if_false, if_true]
        rw [hsub, hrest]
      | false =>
        have hrest := settled_walk_zero s dir rest fs shown hgrest h2
        simp only [walkEntries, hd, Bool.false_eq_true, if_false]
        simpa using hrest

/-- Claim C7 counterexample: over the remote listing containing `a.part`
followed by `a`, downloading `a` on the first run destroys the local file
already published for `a.part` (the transfer's temporary path for `a` is
exactly the destination path of `a.part`, and `os.replace` consumes it),
so the second run over the unchanged remote — all sizes queryable,
`deleteAfterDownload = false` — downloads 1 file, not 0. -/
theorem C7_idempotence_cex :
    ¬ ((walkEntries sPlain [] ePartClash
        ((walkEntries sPlain [] ePartClash fsEmpty 0).fs) 0).count = 0) := by
  decide

/-- Claim C7 (amended): over any remote tree whose directory listings have
pairwise-distinct names none of which equals a sibling name with `.part`
appended, and all of whose remote sizes are queryable, a second traversal
with `deleteAfterDownload = false` against the unchanged remote downloads
0 files. -/
theorem C7_idempotent_amended (s : Settings) (e : REntries) (fs : LocalFS)
    (shown shown' : Nat) (hdel : s.deleteAfterDownload = false)
    (hg : goodEntriesB e = true) :
    (walkEntries s [] e ((walkEntries s [] e fs shown).fs) shown').count = 0 :=
  settled_walk_zero s [] e _ shown' hg (walk_establishes s [] e fs shown hg)

/-- Witness for C7 (amended) on a concrete one-file tree. -/
theorem C7_idempotent_amended_w :
    sPlain.deleteAfterDownload = false ∧ goodEntriesB eW = true ∧
    (walkEntries sPlain [] eW
      ((walkEntries sPlain [] eW fsEmpty 0).fs) 0).count = 0 :=
  ⟨rfl, by decide, C7_idempotent_amended sPlain eW fsEmpty 0 0 rfl (by decide)⟩

theorem aliasFreeB_cons_file (n : String) (f : RFile) (rest : REntries)
    (h : aliasFreeB (.cons n (.file f) rest) = true) :
    NamesOk (.cons n (.file f) rest) ∧ aliasFreeB rest = true := by
  simp only [aliasFreeB, namesOkDeepB, Bool.and_eq_true,
    decide_eq_true_eq] at h ⊢
  exact ⟨h.1, namesOk_tail n (.file f) rest h.1, h.2⟩

theorem aliasFreeB_cons_dir (n : String) (ok : Bool) (es rest : REntries)
    (h : aliasFreeB (.cons n (.dir ok es) rest) = true) :
    NamesOk (.cons n (.dir ok es) rest) ∧ aliasFreeB es = true ∧
      aliasFreeB rest = true := by
  simp only [aliasFreeB, namesOkDeepB, Bool.and_eq_true,
    decide_eq_true_eq] at h ⊢
  exact ⟨h.1, ⟨h.2.1.1, h.2.1.2⟩, namesOk_tail n (.dir ok es) rest h.1, h.2.2⟩

theorem destSpec_congr : ∀ (dir : LPath) (e : REntries)
    (fs0 fs0' fs1 fs1' : LocalFS),
    (∀ p, DepKey dir e p → fs0 p = fs0' p) →
    (∀ p, DepKey dir e p → fs1 p = fs1' p) →
    DestSpec dir e fs0 fs1 → DestSpec dir e fs0' fs1'
  | _, .nil, _, _, _, _, _, _, _ => trivial
  | dir, .cons n (.file f) rest, fs0, fs0', fs1, fs1', h0, h1, hs => by
    simp only [DestSpec] at hs ⊢
    have hd : DepKey dir (.cons n (.file f) rest) (dir ++ [n]) := by
      simp [DepKey]
    refine ⟨?_, destSpec_congr dir rest fs0 fs0' fs1 fs1'
      (fun p hp => h0 p (by simp only [DepKey]; exact Or.inr hp))
      (fun p hp => h1 p (by simp only [DepKey]; exact Or.inr hp)) hs.2⟩
    rw [← h1 _ hd, ← h0 _ hd]
    exact hs.1
  | dir, .cons n (.dir ok es) rest, fs0, fs0', fs1, fs1', h0, h1, hs => by
    simp only [DestSpec] at hs ⊢
    exact ⟨destSpec_congr (dir ++ [n]) es fs0 fs0' fs1 fs1'
        (fun p hp => h0 p (by simp only [DepKey]; exact Or.inl hp))
        (fun p hp => h1 p (by simp only [DepKey]; exact Or.inl hp)) hs.1,
      destSpec_congr dir rest fs0 fs0' fs1 fs1'
        (fun p hp => h0 p (by simp only [DepKey]; exact Or.inr hp))
        (fun p hp => h1 p (by simp only [DepKey]; exact Or.inr hp)) hs.2⟩

theorem destSpec_of_unchanged : ∀ (dir : LPath) (e : REntries)
    (fs0 fs1 : LocalFS),
    (∀ p, DepKey dir e p → fs1 p = fs0 p) → DestSpec dir e fs0 fs1
  | _, .nil, _, _, _ => trivial
  | dir, .cons n (.file f) rest, fs0, fs1, h => by
    simp only [DestSpec]
    exact ⟨Or.inl (h _ (by simp [DepKey])),
      destSpec_of_unchanged dir rest fs0 fs1
        (fun p hp => h p (by simp only [DepKey]; exact Or.inr hp))⟩
  | dir, .cons n (.dir ok es) rest, fs0, fs1, h => by
    simp only [DestSpec]
    exact ⟨destSpec_of_unchanged (dir ++ [n]) es fs0 fs1
        (fun p hp => h p (by simp only [DepKey]; exact Or.inl hp)),
      destSpec_of_unchanged dir rest fs0 fs1
        (fun p hp => h p (by simp only [DepKey]; exact Or.inr hp))⟩

theorem walk_destSpec : ∀ (s : Settings) (dir : LPath) (e : REntries)
    (fs : LocalFS) (shown : Nat), aliasFreeB e = true →
    DestSpec dir e fs ((walkEntries s dir e fs shown).fs)
  | _, _, .nil, _, _, _ => trivial
  | s, dir, .cons n (.file f) rest, fs, shown, hg => by
    obtain ⟨hnames, hgrest⟩ := aliasFreeB_cons_file n f rest hg
    cases hd : isDotName n with
    | true =>
      simp only [walkEntries, DestSpec, hd, if_true]
      exact ⟨Or.inl (walk_frame s dir rest fs shown _
          (not_inKeys_dest dir n (.file f) rest hnames)),
        walk_destSpec s dir rest fs shown hgrest⟩
    | false =>
      simp only [walkEntries, DestSpec, hd, Bool.false_eq_true, if_false]
      constructor
      · rw [walk_frame s dir rest _ _ _
          (not_inKeys_dest dir n (.file f) rest hnames), processFile_dest]
        unfold destAfter
        cases fileAction s f (fs (dir ++ [n])) <;> simp
      · have hih := walk_destSpec s dir rest
          (processFile s dir n f fs shown).fs
          (processFile s dir n f fs shown).shown hgrest
        refine destSpec_congr dir rest _ fs _ _ ?_ (fun p _ => rfl) hih
        intro p hp
        by_cases hpd : p = dir ++ [n]
        · subst hpd
          exact absurd (depKey_inKeys dir rest _ hp)
            (not_inKeys_dest dir n (.file f) rest hnames)
        · by_cases hpt : p = dir ++ [n ++ ".part"]
          · exact absurd (hpt ▸ hp)
              (not_depKey_temp dir n (.file f) rest hnames)
          · exact processFile_frame s dir n f fs shown p hpd hpt
  | s, dir, .cons n (.dir ok es) rest, fs, shown, hg => by
    obtain ⟨hnames, hges, hgrest⟩ := aliasFreeB_cons_dir n ok es rest hg
    cases hd : isDotName n with
    | true =>
      simp only [walkEntries, DestSpec, hd, if_true]
      refine ⟨destSpec_of_unchanged (dir ++ [n]) es fs _ ?_,
        walk_destSpec s dir rest fs shown hgrest⟩
      intro p hp
      exact walk_frame s dir rest fs shown p
        (not_inKeys_under dir n (.dir ok es) rest hnames p
          (depKey_isUnder (dir ++ [n]) es p hp))
    | false =>
      cases ok with
      | true =>
        simp only [walkEntries, DestSpec, hd, Bool.false_eq_true, if_false,
          if_true]
        constructor
        · have hih := walk_destSpec s (dir ++ [n]) es fs 0 hges
          refine destSpec_congr (dir ++ [n]) es fs fs _ _
            (fun p _ => rfl) ?_ hih
          intro p hp
          exact (walk_frame s dir rest _ shown p
            (not_inKeys_under dir n (.dir true es) rest hnames p
              (depKey_isUnder (dir ++ [n]) es p hp))).symm
        · have hih := walk_destSpec s dir rest
            (walkEntries s (dir ++ [n]) es fs 0).fs shown hgrest
          refine destSpec_congr dir rest _ fs _ _ ?_ (fun p _ => rfl) hih
          intro p hp
          exact walk_frame s (dir ++ [n]) es fs 0 p
            (fun hk => not_inKeys_under dir n (.dir true es) rest hnames p
              (inKeys_isUnder (dir ++ [n]) es p hk)
              (depKey_inKeys dir rest p hp))
      | false =>
        simp only [walkEntries, DestSpec, hd, Bool.false_eq_true, if_false]
        refine ⟨destSpec_of_unchanged (dir ++ [n]) es fs _ ?_,
          walk_destSpec s dir rest fs shown hgrest⟩
        intro p hp
        exact walk_frame s dir rest fs shown p
          (not_inKeys_under dir n (.dir false es) rest hnames p
            (depKey_isUnder (dir ++ [n]) es p hp))

/-- Claim C2 counterexample: one walk over the listing `a.part` then `a`
first publishes `a.part` complete (5 bytes), then the interrupted stream
of `a` truncates that same path (the transfer's temporary path aliases the
sibling's destination) and leaves 2 partial bytes there — a destination
path that neither does not exist nor holds the complete previous content,
refuting the claim's universal. -/
theorem C2_partial_at_destination_cex :
    (walkEntries sPlain [] eAlias fsEmpty 0).fs ["a.part"] = some 2 ∧
    ¬ ((walkEntries sPlain [] eAlias fsEmpty 0).fs ["a.part"] = none ∨
       (walkEntries sPlain [] eAlias fsEmpty 0).fs ["a.part"] = some 5) := by
  decide

/-- Claim C2 (amended): every download writes only to the temporary path
`destination + ".part"` and the destination is updated solely by the
atomic rename of the completed temporary file, so over any tree whose
listings are alias-free (pairwise-distinct names, none equal to a sibling
name plus `.part`) every file entry's destination path after the walk
either holds its previous value — in particular it is unchanged by an
interrupted retrieve, second conjunct — or that file's complete content,
never a partial write. -/
theorem C2_atomic_publish_amended (s : Settings) (dir : LPath)
    (e : REntries) (fs : LocalFS) (shown : Nat)
    (hg : aliasFreeB e = true) :
    DestSpec dir e fs ((walkEntries s dir e fs shown).fs) ∧
    (∀ n f k, fileAction s f (fs (dir ++ [n])) = .failAfter k →
      (processFile s dir n f fs shown).fs (dir ++ [n]) = fs (dir ++ [n])) := by
  constructor
  · exact walk_destSpec s dir e fs shown hg
  · intro n f k h
    rw [processFile_dest]
    exact destAfter_eq_of_not_download s f _ (by rw [h]; simp)

/-- Witness for C2 (amended) on a concrete alias-free tree and a concrete
interrupted stream. -/
theorem C2_atomic_publish_amended_w :
    DestSpec [] eW fsEmpty ((walkEntries sPlain [] eW fsEmpty 0).fs) ∧
    (processFile sPlain [] "b" fStreamErr fsEmpty 0).fs ([] ++ ["b"]) =
      fsEmpty ([] ++ ["b"]) :=
  ⟨(C2_atomic_publish_amended sPlain [] eW fsEmpty 0 (by decide)).1,
    (C2_atomic_publish_amended sPlain [] eW fsEmpty 0 (by decide)).2
      "b" fStreamErr 3 (by decide)⟩
